import Mathlib

/-!
Shallow embedding of the agrifusion-backend market service
(`getPriceHistory` in the market service module) and of the AI service
fallback paths (`getAIAdvice`, `getAITimingAdvice` in
`src/services/aiService.js`).

JavaScript numbers are modelled as rationals (ℚ); the implicit global
`Math.random()` source is modelled as an explicit stream `rand : ℕ → ℚ`
consumed in call order: index 0 for the starting price, and for the
j-th loop iteration index `1 + 2*j` for the daily price delta and
index `2 + 2*j` for the trading volume.  The generation instant
("today") is modelled as a fixed integer epoch day, since the source
formats dates at day granularity (`toISOString().split('T')[0]`).
-/

namespace AgriFusion

/-- JavaScript `Math.round`: round half toward positive infinity,
i.e. `⌊x + 1/2⌋`. -/
def jsRound (x : ℚ) : ℤ := ⌊x + 1/2⌋

/-- `Math.round(x * 100) / 100`: round to two decimal places, as the
source does before emitting a price. -/
def round2 (x : ℚ) : ℚ := (jsRound (x * 100) : ℚ) / 100

/-- `Math.max(50, Math.min(300, x))`: the source's per-iteration clamp
keeping the walk within realistic bounds. -/
def clamp (x : ℚ) : ℚ := max 50 (min 300 x)

/-- One element of the `history` array: a dated price/volume point.
`date` is the day offset in epoch days (day granularity, as in the
source's `YYYY-MM-DD` formatting). -/
structure Sample where
  date : ℤ
  price : ℚ
  volume : ℤ
  deriving DecidableEq

/-- The object returned by `getPriceHistory`. -/
structure PriceHistoryResult where
  crop : String
  history : List Sample
  period : String
  deriving DecidableEq

/-- `Math.floor(Math.random() * 100) + 100`: the starting price drawn
from the first random sample. -/
def basePriceInit (rand : ℕ → ℚ) : ℚ := ((⌊rand 0 * 100⌋ : ℤ) : ℚ) + 100

/-- `(Math.random() - 0.5) * 10`: the daily price delta of loop
iteration `j`, drawn from random index `1 + 2*j`. -/
def deltaDraw (rand : ℕ → ℚ) (j : ℕ) : ℚ := (rand (1 + 2 * j) - 1/2) * 10

/-- `Math.floor(Math.random() * 5000) + 500`: the trading volume of
loop iteration `j`, drawn from random index `2 + 2*j`. -/
def volumeDraw (rand : ℕ → ℚ) (j : ℕ) : ℤ := ⌊rand (2 + 2 * j) * 5000⌋ + 500

/-- The body of the source's `for (let i = days; i >= 0; i--)` loop,
unrolled by remaining iteration count (`fuel`).  Iteration `j`
corresponds to loop variable `i = days - j`, hence date offset
`today - i = today - days + j`.  Each iteration first adds the random
delta to the accumulator, immediately clamps it, and then pushes the
sample whose price is the clamped accumulator rounded to 2 decimals. -/
def historyFrom (rand : ℕ → ℚ) (today days : ℤ) : ℚ → ℕ → ℕ → List Sample
  | _, _, 0 => []
  | base, j, fuel + 1 =>
    let base2 := clamp (base + deltaDraw rand j)
    { date := today - days + j
      price := round2 base2
      volume := volumeDraw rand j } :: historyFrom rand today days base2 (j + 1) fuel

/-- Shallow embedding of `getPriceHistory(crop, days)`.  The loop
`for (let i = days; i >= 0; i--)` runs `days + 1` times when
`days ≥ 0` and zero times when `days < 0`, i.e. `(days + 1).toNat`
iterations. -/
def getPriceHistory (rand : ℕ → ℚ) (today : ℤ) (crop : String) (days : ℤ) :
    PriceHistoryResult :=
  { crop := crop
    history := historyFrom rand today days (basePriceInit rand) 0 (days + 1).toNat
    period := toString days ++ " days" }

/-- The walk accumulator (`basePrice`) after `k` loop iterations:
`walkAcc rand 0` is the starting price, and each iteration replaces it
by the clamped sum with that iteration's delta. -/
def walkAcc (rand : ℕ → ℚ) : ℕ → ℚ
  | 0 => basePriceInit rand
  | k + 1 => clamp (walkAcc rand k + deltaDraw rand k)

/-- Generalisation of `walkAcc` starting from an arbitrary accumulator
value `base` at loop iteration `j`: the value after `k` further
iterations. -/
def walkFrom (rand : ℕ → ℚ) (base : ℚ) (j : ℕ) : ℕ → ℚ
  | 0 => base
  | k + 1 => clamp (walkFrom rand base j k + deltaDraw rand (j + k))

/-- Response object of `getAIAdvice`. -/
structure AdviceResponse where
  crop : String
  location : String
  advice : String
  timestamp : String
  note : Option String
  deriving DecidableEq

/-- The hardcoded fallback advice string of `getAIAdvice`'s catch
branch (the source's template literal with `crop` and `location`
interpolated). -/
def fallbackAdvice (crop location : String) : String :=
  "Mock advice: For " ++ crop ++ " in " ++ location ++
    ", ensure proper irrigation and soil testing. Consult local agricultural extension services for specific recommendations."

/-- The `note` string both catch branches attach to their fallback
responses. -/
def fallbackNote : String := "This is a fallback response due to API unavailability"

/-- Shallow embedding of `getAIAdvice(crop, location)`.  The upstream
`axios.post` call is modelled by its outcome `apiResult`: `Except.ok`
carries the completion text the success path extracts, `Except.error`
stands for the thrown error the catch branch receives.  The timestamp
`new Date().toISOString()` is the explicit input `now`.  The return
type is `AdviceResponse` (not an `Except`): both branches return
normally. -/
def getAIAdvice (apiResult : Except String String) (now : String)
    (crop location : String) : AdviceResponse :=
  match apiResult with
  | Except.ok content =>
    { crop := crop
      location := location
      advice := content
      timestamp := now
      note := none }
  | Except.error _ =>
    { crop := crop
      location := location
      advice := fallbackAdvice crop location
      timestamp := now
      note := some fallbackNote }

/-- Response object of `getAITimingAdvice`. -/
structure TimingResponse where
  recommendation : String
  timestamp : String
  marketIndicator : String
  note : Option String
  deriving DecidableEq

/-- The hardcoded fallback recommendation of `getAITimingAdvice`'s
catch branch. -/
def fallbackTiming : String :=
  "Mock timing advice: Current market conditions suggest waiting 2-3 weeks for potentially better prices. Monitor local supply and demand."

/-- Shallow embedding of `getAITimingAdvice()`.  The success path's
`Math.random() > 0.5 ? 'BUY' : 'WAIT'` uses the explicit draw `rand`;
the catch branch returns the hardcoded fallback with indicator
`"WAIT"`. -/
def getAITimingAdvice (apiResult : Except String String) (rand : ℚ)
    (now : String) : TimingResponse :=
  match apiResult with
  | Except.ok content =>
    { recommendation := content
      timestamp := now
      marketIndicator := if 1/2 < rand then "BUY" else "WAIT"
      note := none }
  | Except.error _ =>
    { recommendation := fallbackTiming
      timestamp := now
      marketIndicator := "WAIT"
      note := some fallbackNote }

/-! ## Helper lemmas -/

/-- `historyFrom` emits exactly `fuel` samples. -/
theorem historyFrom_length (rand : ℕ → ℚ) (today days : ℤ) :
    ∀ (fuel : ℕ) (base : ℚ) (j : ℕ),
      (historyFrom rand today days base j fuel).length = fuel := by
  intro fuel
  induction fuel with
  | zero => intro base j; rfl
  | succ n ih =>
    intro base j
    simp only [historyFrom, List.length_cons, ih]

/-- The clamp always lands in `[50, 300]`. -/
theorem clamp_mem (x : ℚ) : 50 ≤ clamp x ∧ clamp x ≤ 300 := by
  unfold clamp
  constructor
  · exact le_max_left 50 (min 300 x)
  · exact max_le (by norm_num) (min_le_left 300 x)

/-- Rounding to two decimals preserves membership in `[50, 300]`. -/
theorem round2_mem {x : ℚ} (h1 : 50 ≤ x) (h2 : x ≤ 300) :
    50 ≤ round2 x ∧ round2 x ≤ 300 := by
  unfold round2 jsRound
  constructor
  · rw [le_div_iff₀ (by norm_num : (0:ℚ) < 100)]
    have : (5000 : ℤ) ≤ ⌊x * 100 + 1/2⌋ := by
      apply Int.le_floor.mpr
      push_cast
      nlinarith
    calc (50 : ℚ) * 100 = ((5000 : ℤ) : ℚ) := by norm_num
    _ ≤ _ := by exact_mod_cast this
  · rw [div_le_iff₀ (by norm_num : (0:ℚ) < 100)]
    have : (⌊x * 100 + 1/2⌋ : ℤ) ≤ 30000 := by
      have h := Int.floor_le (x * 100 + 1/2)
      have : x * 100 + 1/2 ≤ 30000 + 1/2 := by nlinarith
      exact Int.le_of_lt_add_one (by
        have := lt_of_le_of_lt (le_trans h this) (by norm_num : (30000 : ℚ) + 1/2 < 30001)
        exact_mod_cast Int.floor_lt.mpr (by push_cast; nlinarith))
    calc ((⌊x * 100 + 1/2⌋ : ℤ) : ℚ) ≤ ((30000 : ℤ) : ℚ) := by exact_mod_cast this
    _ = 300 * 100 := by norm_num

/-- Peeling one step off the front of a `walkFrom` run. -/
theorem walkFrom_shift (rand : ℕ → ℚ) :
    ∀ (k : ℕ) (base : ℚ) (j : ℕ),
      walkFrom rand base j (k + 1) =
        walkFrom rand (clamp (base + deltaDraw rand j)) (j + 1) k := by
  intro k
  induction k with
  | zero => intro base j; simp [walkFrom]
  | succ n ih =>
    intro base j
    show clamp (walkFrom rand base j (n + 1) + deltaDraw rand (j + (n + 1))) = _
    rw [ih base j]
    show _ = clamp
      (walkFrom rand (clamp (base + deltaDraw rand j)) (j + 1) n + deltaDraw rand (j + 1 + n))
    have : j + (n + 1) = j + 1 + n := by omega
    rw [this]

/-- `walkAcc` is `walkFrom` run from the starting price at iteration 0. -/
theorem walkAcc_eq_walkFrom (rand : ℕ → ℚ) :
    ∀ k : ℕ, walkAcc rand k = walkFrom rand (basePriceInit rand) 0 k := by
  intro k
  induction k with
  | zero => rfl
  | succ n ih =>
    show clamp (walkAcc rand n + deltaDraw rand n) = _
    rw [ih]
    show _ = clamp (walkFrom rand (basePriceInit rand) 0 n + deltaDraw rand (0 + n))
    rw [Nat.zero_add]

/-- The sample emitted at position `k` of a `historyFrom` run: its date,
price (the walk value after `k + 1` further steps, rounded) and
volume. -/
theorem historyFrom_getElem (rand : ℕ → ℚ) (today days : ℤ) :
    ∀ (k fuel : ℕ), k < fuel → ∀ (base : ℚ) (j : ℕ),
      (historyFrom rand today days base j fuel)[k]? =
        some { date := today - days + (j + k)
               price := round2 (walkFrom rand base j (k + 1))
               volume := volumeDraw rand (j + k) } := by
  intro k
  induction k with
  | zero =>
    intro fuel hk base j
    match fuel, hk with
    | fuel + 1, _ =>
      simp only [historyFrom, List.getElem?_cons_zero, Option.some.injEq, Sample.mk.injEq]
      refine ⟨by push_cast; ring, ?_, by rw [Nat.add_zero]⟩
      have h1 : walkFrom rand base j (0 + 1) = clamp (base + deltaDraw rand j) := by
        show clamp (walkFrom rand base j 0 + deltaDraw rand (j + 0)) = _
        rw [Nat.add_zero]
        rfl
      rw [h1]
  | succ n ih =>
    intro fuel hk base j
    match fuel, hk with
    | fuel + 1, hk =>
      simp only [historyFrom, List.getElem?_cons_succ]
      rw [ih fuel (by omega) (clamp (base + deltaDraw rand j)) (j + 1)]
      simp only [Option.some.injEq, Sample.mk.injEq]
      refine ⟨by push_cast; ring, ?_, by congr 1; omega⟩
      rw [← walkFrom_shift rand (n + 1) base j]

/-- The sample emitted at position `k` of the full `getPriceHistory`
run: date offset `today - days + k`, price `round2 (walkAcc (k + 1))`,
volume from the iteration's dedicated draw. -/
theorem getPriceHistory_getElem (rand : ℕ → ℚ) (today : ℤ) (crop : String)
    (days : ℤ) (k : ℕ) (hk : k < (days + 1).toNat) :
    ((getPriceHistory rand today crop days).history)[k]? =
      some { date := today - days + k
             price := round2 (walkAcc rand (k + 1))
             volume := volumeDraw rand k } := by
  show (historyFrom rand today days (basePriceInit rand) 0 (days + 1).toNat)[k]? = _
  rw [historyFrom_getElem rand today days k (days + 1).toNat hk (basePriceInit rand) 0,
    walkAcc_eq_walkFrom]
  simp only [Nat.zero_add, Nat.cast_zero, zero_add, Nat.cast_ofNat]

/-- Every price of a `historyFrom` run lies in `[50, 300]`. -/
theorem historyFrom_price_mem (rand : ℕ → ℚ) (today days : ℤ) :
    ∀ (fuel : ℕ) (base : ℚ) (j : ℕ) (s : Sample),
      s ∈ historyFrom rand today days base j fuel → 50 ≤ s.price ∧ s.price ≤ 300 := by
  intro fuel
  induction fuel with
  | zero => intro base j s hs; simp [historyFrom] at hs
  | succ n ih =>
    intro base j s hs
    rw [historyFrom] at hs
    rcases List.mem_cons.mp hs with h | h
    · subst h
      exact round2_mem (clamp_mem _).1 (clamp_mem _).2
    · exact ih _ _ s h

/-- Evaluating a floor from a two-sided bound. -/
theorem floor_eval {x : ℚ} {n : ℤ} (h1 : (n : ℚ) ≤ x) (h2 : x < (n : ℚ) + 1) :
    ⌊x⌋ = n := by
  rw [Int.floor_eq_iff]
  exact ⟨h1, h2⟩

/-- Rounding an integer value to two decimals returns it unchanged. -/
theorem round2_intCast (n : ℤ) : round2 (n : ℚ) = n := by
  unfold round2 jsRound
  have h : ⌊(n : ℚ) * 100 + 1/2⌋ = 100 * n := by
    apply floor_eval
    · push_cast
      nlinarith [le_refl ((n : ℚ) * 100)]
    · push_cast
      nlinarith [le_refl ((n : ℚ) * 100)]
  rw [h]
  push_cast
  ring

/-! ## Claims -/

/-- Claim C1: for every crop name and every integer `days ≥ 0`, every
price in the history returned by `getPriceHistory crop days` lies within
the closed interval `[50, 300]`; no emitted sample is out of bounds even
transiently. -/
theorem priceHistory_price_bounds (rand : ℕ → ℚ) (today : ℤ) (crop : String)
    (days : ℤ) (h : 0 ≤ days) :
    ∀ s ∈ (getPriceHistory rand today crop days).history,
      50 ≤ s.price ∧ s.price ≤ 300 := by
  intro s hs
  exact historyFrom_price_mem rand today days _ _ _ s hs

/-- Witness for C1 at `rand ≡ 0`, `today = 0`, crop `"Wheat"`, `days = 3`. -/
theorem priceHistory_price_bounds_witness :
    (0 : ℤ) ≤ 3 ∧
      ∀ s ∈ (getPriceHistory (fun _ => 0) 0 "Wheat" 3).history,
        50 ≤ s.price ∧ s.price ≤ 300 :=
  ⟨by decide, priceHistory_price_bounds (fun _ => 0) 0 "Wheat" 3 (by decide)⟩

/-- Claim C2: for every crop name and every integer `days ≥ 0`,
`getPriceHistory crop days` returns a history array containing exactly
`days + 1` samples. -/
theorem priceHistory_length_eq (rand : ℕ → ℚ) (today : ℤ) (crop : String)
    (days : ℤ) (h : 0 ≤ days) :
    ((getPriceHistory rand today crop days).history.length : ℤ) = days + 1 := by
  show ((historyFrom rand today days (basePriceInit rand) 0 (days + 1).toNat).length : ℤ)
    = days + 1
  rw [historyFrom_length]
  omega

/-- Witness for C2 at the source's default `days = 30`: 31 samples. -/
theorem priceHistory_length_eq_witness :
    (0 : ℤ) ≤ 30 ∧
      (((getPriceHistory (fun _ => 0) 0 "Wheat" 30).history.length : ℤ) = 30 + 1) :=
  ⟨by decide, priceHistory_length_eq (fun _ => 0) 0 "Wheat" 30 (by decide)⟩

/-- Claim C10: for every crop name and every integer `days < 0`,
`getPriceHistory crop days` raises no error: it returns normally with an
empty history array and a period string of the form `"<days> days"` —
negative periods are silently accepted rather than rejected. -/
theorem priceHistory_neg_days (rand : ℕ → ℚ) (today : ℤ) (crop : String)
    (days : ℤ) (h : days < 0) :
    (getPriceHistory rand today crop days).history = []
    ∧ (getPriceHistory rand today crop days).period = toString days ++ " days" := by
  constructor
  · show historyFrom rand today days (basePriceInit rand) 0 (days + 1).toNat = []
    have h0 : (days + 1).toNat = 0 := by omega
    rw [h0]
    rfl
  · rfl

/-- Witness for C10 at `days = -5`: empty history and period `"-5 days"`. -/
theorem priceHistory_neg_days_witness :
    (-5 : ℤ) < 0
    ∧ ((getPriceHistory (fun _ => 0) 0 "Wheat" (-5)).history = []
        ∧ (getPriceHistory (fun _ => 0) 0 "Wheat" (-5)).period = toString (-5 : ℤ) ++ " days")
    ∧ toString (-5 : ℤ) ++ " days" = "-5 days" :=
  ⟨by decide, priceHistory_neg_days (fun _ => 0) 0 "Wheat" (-5) (by decide), by rfl⟩

/-- Claim C3: for every `days ≥ 0`, the dates of the samples returned by
`getPriceHistory` are exactly `today - days, …, today`: consecutive
samples' dates differ by exactly one day, are ascending, start at
`today - days` and end at the generation date `today`, with no gaps or
duplicates. -/
theorem priceHistory_dates_contiguous (rand : ℕ → ℚ) (today : ℤ) (crop : String)
    (days : ℤ) (h : 0 ≤ days) :
    (getPriceHistory rand today crop days).history.map Sample.date =
      (List.range (days + 1).toNat).map (fun k : ℕ => today - days + k)
    ∧ ((getPriceHistory rand today crop days).history.map Sample.date).head? =
        some (today - days)
    ∧ ((getPriceHistory rand today crop days).history.map Sample.date).getLast? =
        some today
    ∧ List.Chain' (fun a b => b = a + 1)
        ((getPriceHistory rand today crop days).history.map Sample.date) := by
  have hlen : (getPriceHistory rand today crop days).history.length = (days + 1).toNat :=
    historyFrom_length rand today days (days + 1).toNat (basePriceInit rand) 0
  have hm : (days + 1).toNat = days.toNat + 1 := by omega
  have hmap : (getPriceHistory rand today crop days).history.map Sample.date =
      (List.range (days + 1).toNat).map (fun k : ℕ => today - days + k) := by
    apply List.ext_getElem?
    intro n
    rw [List.getElem?_map, List.getElem?_map]
    by_cases hn : n < (days + 1).toNat
    · rw [getPriceHistory_getElem rand today crop days n hn, List.getElem?_range hn]
      rfl
    · rw [List.getElem?_eq_none (by omega), List.getElem?_eq_none (by
        rw [List.length_range]; omega)]
      rfl
  refine ⟨hmap, ?_, ?_, ?_⟩
  · rw [hmap, List.head?_eq_getElem? _, List.getElem?_map,
      List.getElem?_range (by omega : 0 < (days + 1).toNat)]
    simp
  · rw [hmap, hm, List.range_succ, List.map_append]
    simp only [List.map_cons, List.map_nil]
    rw [List.getLast?_concat]
    have : today - days + (days.toNat : ℤ) = today := by omega
    rw [this]
  · rw [hmap, List.chain'_map, hm]
    refine (List.chain'_range_succ _ _).mpr ?_
    intro m _
    push_cast
    ring

/-- Witness for C3 at `today = 10`, `days = 3`: dates `7, 8, 9, 10`. -/
theorem priceHistory_dates_contiguous_witness :
    (0 : ℤ) ≤ 3
    ∧ ((getPriceHistory (fun _ => 0) 10 "Wheat" 3).history.map Sample.date =
        (List.range ((3 : ℤ) + 1).toNat).map (fun k : ℕ => 10 - 3 + k)
      ∧ ((getPriceHistory (fun _ => 0) 10 "Wheat" 3).history.map Sample.date).head? =
          some (10 - 3)
      ∧ ((getPriceHistory (fun _ => 0) 10 "Wheat" 3).history.map Sample.date).getLast? =
          some 10
      ∧ List.Chain' (fun a b => b = a + 1)
          ((getPriceHistory (fun _ => 0) 10 "Wheat" 3).history.map Sample.date)) :=
  ⟨by decide, priceHistory_dates_contiguous (fun _ => 0) 10 "Wheat" 3 (by decide)⟩

/-- Counterexample to claim C4: with the randomness source constantly 0,
`getPriceHistory "Wheat" 0` emits one sample whose price is 95, while
the rounded starting value is 100 — a random delta is applied before
the single sample is emitted. -/
theorem priceHistory_zero_days_cex :
    (getPriceHistory (fun _ => 0) 0 "Wheat" 0).history.map Sample.price = [95]
    ∧ round2 (basePriceInit (fun _ => 0)) = 100
    ∧ (95 : ℚ) ≠ 100 := by
  have hb : basePriceInit (fun _ => (0 : ℚ)) = 100 := by
    simp [basePriceInit]
  have hd : deltaDraw (fun _ => (0 : ℚ)) 0 = -5 := by
    norm_num [deltaDraw]
  have e : (getPriceHistory (fun _ => 0) 0 "Wheat" 0).history.map Sample.price =
      [round2 (clamp (basePriceInit (fun _ => 0) + deltaDraw (fun _ => 0) 0))] := rfl
  refine ⟨?_, ?_, by norm_num⟩
  · rw [e, hb, hd]
    have hc : clamp (100 + -5 : ℚ) = 95 := by norm_num [clamp]
    rw [hc]
    have h95 : ((95 : ℤ) : ℚ) = (95 : ℚ) := by norm_num
    rw [← h95, round2_intCast]
  · rw [hb]
    have h100 : ((100 : ℤ) : ℚ) = (100 : ℚ) := by norm_num
    rw [← h100, round2_intCast]

/-- Claim C4 (amended): when `days = 0`, `getPriceHistory` emits exactly
one sample dated today, but one walk step is applied before emission:
its price is the clamped sum of the starting value and the first random
delta, rounded to two decimals — not the bare starting value. -/
theorem getPriceHistory_zero_days (rand : ℕ → ℚ) (today : ℤ) (crop : String) :
    (getPriceHistory rand today crop 0).history =
      [{ date := today
         price := round2 (clamp (basePriceInit rand + deltaDraw rand 0))
         volume := volumeDraw rand 0 }] := by
  have e : (getPriceHistory rand today crop 0).history =
      [{ date := today - 0 + ((0 : ℕ) : ℤ)
         price := round2 (clamp (basePriceInit rand + deltaDraw rand 0))
         volume := volumeDraw rand 0 }] := rfl
  rw [e]
  norm_num

/-- Claim C5: the clamp to `[50, 300]` is applied on every iteration of
the walk: the accumulator is immediately replaced by
`max 50 (min 300 ·)` after the delta, a step that would overshoot the
upper bound is pinned exactly at 300 (the emitted price is 300, not the
out-of-bounds value), and the next step's delta is added to the pinned
value. -/
theorem priceHistory_pinned_at_bound (rand : ℕ → ℚ) (today : ℤ) (crop : String)
    (days : ℤ) (k : ℕ) (hk : k + 1 < (days + 1).toNat)
    (hover : 300 < walkAcc rand k + deltaDraw rand k) :
    walkAcc rand (k + 1) = max 50 (min 300 (walkAcc rand k + deltaDraw rand k))
    ∧ walkAcc rand (k + 1) = 300
    ∧ ((getPriceHistory rand today crop days).history)[k]? =
        some { date := today - days + k, price := 300, volume := volumeDraw rand k }
    ∧ ((getPriceHistory rand today crop days).history)[k + 1]? =
        some { date := today - days + k + 1
               price := round2 (clamp (300 + deltaDraw rand (k + 1)))
               volume := volumeDraw rand (k + 1) } := by
  have h300 : walkAcc rand (k + 1) = 300 := by
    show clamp (walkAcc rand k + deltaDraw rand k) = 300
    unfold clamp
    rw [min_eq_left hover.le, max_eq_right (by norm_num : (50 : ℚ) ≤ 300)]
  refine ⟨rfl, h300, ?_, ?_⟩
  · rw [getPriceHistory_getElem rand today crop days k (by omega)]
    simp only [Option.some.injEq, Sample.mk.injEq]
    refine ⟨by trivial, ?_, by trivial⟩
    rw [h300]
    exact_mod_cast round2_intCast 300
  · rw [getPriceHistory_getElem rand today crop days (k + 1) hk]
    simp only [Option.some.injEq, Sample.mk.injEq]
    refine ⟨by first | trivial | (push_cast; ring), ?_, by trivial⟩
    have e : walkAcc rand (k + 1 + 1) =
        clamp (walkAcc rand (k + 1) + deltaDraw rand (k + 1)) := rfl
    rw [e, h300]

/-- Witness for C5: with every random draw 100 the very first step
overshoots, so the first sample is pinned at 300 and the walk continues
from 300. -/
theorem priceHistory_pinned_at_bound_witness :
    (0 + 1 < ((1 : ℤ) + 1).toNat)
    ∧ (300 < walkAcc (fun _ => 100) 0 + deltaDraw (fun _ => 100) 0)
    ∧ (walkAcc (fun _ => 100) (0 + 1) =
        max 50 (min 300 (walkAcc (fun _ => 100) 0 + deltaDraw (fun _ => 100) 0))
      ∧ walkAcc (fun _ => 100) (0 + 1) = 300
      ∧ ((getPriceHistory (fun _ => 100) 0 "Corn" 1).history)[0]? =
          some { date := 0 - 1 + (0 : ℕ), price := 300,
                 volume := volumeDraw (fun _ => 100) 0 }
      ∧ ((getPriceHistory (fun _ => 100) 0 "Corn" 1).history)[0 + 1]? =
          some { date := 0 - 1 + (0 : ℕ) + 1
                 price := round2 (clamp (300 + deltaDraw (fun _ => 100) (0 + 1)))
                 volume := volumeDraw (fun _ => 100) (0 + 1) }) := by
  have hover : (300 : ℚ) < walkAcc (fun _ => 100) 0 + deltaDraw (fun _ => 100) 0 := by
    show (300 : ℚ) < basePriceInit (fun _ => 100) + deltaDraw (fun _ => 100) 0
    unfold basePriceInit deltaDraw
    norm_num [Int.floor_ofNat]
  exact ⟨by decide, hover,
    priceHistory_pinned_at_bound (fun _ => 100) 0 "Corn" 1 0 (by decide) hover⟩

/-- Claim C6: every emitted price is the walk accumulator rounded to two
decimal places, with rounding applied after clamping
(`round2 (clamp ·)`), while the accumulator itself carries the
unrounded (clamped) value forward to the next step. -/
theorem priceHistory_clamp_then_round (rand : ℕ → ℚ) (today : ℤ) (crop : String)
    (days : ℤ) (k : ℕ) (hk : k < (days + 1).toNat) :
    ((getPriceHistory rand today crop days).history)[k]? =
      some { date := today - days + k
             price := round2 (clamp (walkAcc rand k + deltaDraw rand k))
             volume := volumeDraw rand k }
    ∧ walkAcc rand (k + 1) = clamp (walkAcc rand k + deltaDraw rand k) := by
  refine ⟨?_, rfl⟩
  rw [getPriceHistory_getElem rand today crop days k hk]
  rfl

/-- Witness for C6 at `rand ≡ 1/3`, `days = 2`, index 1. -/
theorem priceHistory_clamp_then_round_witness :
    (1 < ((2 : ℤ) + 1).toNat)
    ∧ (((getPriceHistory (fun _ => 1/3) 0 "Rice" 2).history)[1]? =
        some { date := 0 - 2 + (1 : ℕ)
               price := round2 (clamp (walkAcc (fun _ => 1/3) 1 + deltaDraw (fun _ => 1/3) 1))
               volume := volumeDraw (fun _ => 1/3) 1 }
      ∧ walkAcc (fun _ => 1/3) (1 + 1) =
          clamp (walkAcc (fun _ => 1/3) 1 + deltaDraw (fun _ => 1/3) 1)) :=
  ⟨by decide, priceHistory_clamp_then_round (fun _ => 1/3) 0 "Rice" 2 1 (by decide)⟩

/-- `historyFrom` reads the random stream only at the delta and volume
indices of its iterations, all of which are at most `2 * (j + fuel)`. -/
theorem historyFrom_congr (rand1 rand2 : ℕ → ℚ) (today days : ℤ) :
    ∀ (fuel : ℕ) (base : ℚ) (j : ℕ),
      (∀ n, n ≤ 2 * (j + fuel) → rand1 n = rand2 n) →
      historyFrom rand1 today days base j fuel =
        historyFrom rand2 today days base j fuel := by
  intro fuel
  induction fuel with
  | zero => intro base j _; rfl
  | succ m ih =>
    intro base j h
    have hd : deltaDraw rand1 j = deltaDraw rand2 j := by
      unfold deltaDraw
      rw [h (1 + 2 * j) (by omega)]
    have hv : volumeDraw rand1 j = volumeDraw rand2 j := by
      unfold volumeDraw
      rw [h (2 + 2 * j) (by omega)]
    simp only [historyFrom]
    rw [hd, hv, ih (clamp (base + deltaDraw rand2 j)) (j + 1) (fun n hn => h n (by omega))]

/-- Claim C7: with the randomness source and the generation date held
fixed as explicit inputs, `getPriceHistory` is deterministic in those
inputs: two calls whose randomness streams agree on the finitely many
draws the call consumes (and with identical crop and days) produce
identical output — the function reads no state beyond its explicit
inputs and writes none that persists between calls. -/
theorem priceHistory_deterministic (rand1 rand2 : ℕ → ℚ) (today : ℤ)
    (crop : String) (days : ℤ)
    (h : ∀ n, n ≤ 2 * (days + 1).toNat → rand1 n = rand2 n) :
    getPriceHistory rand1 today crop days = getPriceHistory rand2 today crop days := by
  unfold getPriceHistory
  have hb : basePriceInit rand1 = basePriceInit rand2 := by
    unfold basePriceInit
    rw [h 0 (by omega)]
  rw [hb, historyFrom_congr rand1 rand2 today days ((days + 1).toNat)
    (basePriceInit rand2) 0 (fun n hn => h n (by omega))]

/-- Witness for C7: two distinct randomness streams that agree on the
consumed prefix yield identical results at `days = 1`. -/
theorem priceHistory_deterministic_witness :
    (∀ n : ℕ, n ≤ 2 * (((1 : ℤ) + 1).toNat) →
      (fun _ => (1/2 : ℚ)) n = (fun n => if n ≤ 4 then (1/2 : ℚ) else 7) n)
    ∧ getPriceHistory (fun _ => (1/2 : ℚ)) 0 "Maize" 1 =
        getPriceHistory (fun n => if n ≤ 4 then (1/2 : ℚ) else 7) 0 "Maize" 1 := by
  have hagree : ∀ n : ℕ, n ≤ 2 * (((1 : ℤ) + 1).toNat) →
      (fun _ => (1/2 : ℚ)) n = (fun n => if n ≤ 4 then (1/2 : ℚ) else 7) n := by
    intro n hn
    have h2 : ((1 : ℤ) + 1).toNat = 2 := by decide
    rw [h2] at hn
    have h4 : n ≤ 4 := by omega
    simp [h4]
  exact ⟨hagree, priceHistory_deterministic _ _ 0 "Maize" 1 hagree⟩

/-- Claim C8: when the upstream language-model API call fails,
`getAIAdvice` does not propagate the error: it returns a mock response
that still contains the requested crop and location, the hardcoded
fallback advice string, a timestamp, and a note marking it as a
fallback; likewise `getAITimingAdvice` returns the hardcoded fallback
recommendation with `marketIndicator = "WAIT"` on failure. -/
theorem aiService_fallback_on_error (err now crop location : String)
    (rand : ℚ) (now2 : String) :
    getAIAdvice (Except.error err) now crop location =
      { crop := crop
        location := location
        advice := fallbackAdvice crop location
        timestamp := now
        note := some fallbackNote }
    ∧ getAITimingAdvice (Except.error err) rand now2 =
      { recommendation := fallbackTiming
        timestamp := now2
        marketIndicator := "WAIT"
        note := some fallbackNote } :=
  ⟨rfl, rfl⟩

/-- Claim C9: every sample's volume is an integer in `[500, 5499]`
(`Math.floor(Math.random() * 5000) + 500` with the random draw in
`[0, 1)`), and the volume at index `k` is a function of that
iteration's dedicated random draw (index `2 + 2k`) alone — it does not
depend on the sample's price draws or on neighboring volumes' draws. -/
theorem priceHistory_volume_range (rand : ℕ → ℚ) (today : ℤ) (crop : String)
    (days : ℤ) (k : ℕ)
    (hrand : ∀ n, 0 ≤ rand n ∧ rand n < 1)
    (hk : k < (days + 1).toNat) :
    ((getPriceHistory rand today crop days).history.map Sample.volume)[k]? =
      some (⌊rand (2 + 2 * k) * 5000⌋ + 500)
    ∧ 500 ≤ ⌊rand (2 + 2 * k) * 5000⌋ + 500
    ∧ ⌊rand (2 + 2 * k) * 5000⌋ + 500 ≤ 5499 := by
  obtain ⟨h0, h1⟩ := hrand (2 + 2 * k)
  refine ⟨?_, ?_, ?_⟩
  · rw [List.getElem?_map, getPriceHistory_getElem rand today crop days k hk]
    rfl
  · have hf : (0 : ℤ) ≤ ⌊rand (2 + 2 * k) * 5000⌋ := by
      apply Int.le_floor.mpr
      push_cast
      nlinarith
    omega
  · have hf : ⌊rand (2 + 2 * k) * 5000⌋ < 5000 := by
      apply Int.floor_lt.mpr
      push_cast
      nlinarith
    omega

/-- Witness for C9 at `rand ≡ 1/2`, `days = 2`, index 1: volume 3000. -/
theorem priceHistory_volume_range_witness :
    (∀ n : ℕ, 0 ≤ ((fun _ => (1/2 : ℚ)) n) ∧ ((fun _ => (1/2 : ℚ)) n) < 1)
    ∧ (1 < ((2 : ℤ) + 1).toNat)
    ∧ (((getPriceHistory (fun _ => (1/2 : ℚ)) 0 "Beans" 2).history.map Sample.volume)[1]? =
        some (⌊(fun _ => (1/2 : ℚ)) (2 + 2 * 1) * 5000⌋ + 500)
      ∧ 500 ≤ ⌊(fun _ => (1/2 : ℚ)) (2 + 2 * 1) * 5000⌋ + 500
      ∧ ⌊(fun _ => (1/2 : ℚ)) (2 + 2 * 1) * 5000⌋ + 500 ≤ 5499) := by
  have hr : ∀ n : ℕ, 0 ≤ ((fun _ => (1/2 : ℚ)) n) ∧ ((fun _ => (1/2 : ℚ)) n) < 1 := by
    intro n
    norm_num
  exact ⟨hr, by decide,
    priceHistory_volume_range (fun _ => (1/2 : ℚ)) 0 "Beans" 2 1 hr (by decide)⟩

end AgriFusion
